import Mathlib

/-!
Shallow embedding of the interrupt-driven low-pass-filter firmware in src/main.c.

The persistent program state consists of the filter statics of adc_handler
(y_prev, x_prev, main.c line 155), the shared display buffer display_number
(line 39) and the multiplex cursor dig of display_handler (line 248).  The
statics adc_raw, adc_volt, x and y are overwritten before every use inside a
single activation, so they carry no state between activations and are modelled
as locals.  Floating-point arithmetic is modelled exactly over the rationals.
-/

/-- RESOLUTION selector, main.c line 10: the build uses 12-bit ADC resolution. -/
def RESOLUTION : ℕ := 12

/-- DISPLAY_DIGIT_SIZE_MAX, main.c line 38. -/
def DISPLAY_DIGIT_SIZE_MAX : ℕ := 4

/-- SAMP_FREQ, main.c line 157. -/
def SAMP_FREQ : ℚ := 1000

/-- PI, main.c line 158: the low-precision approximation 3.14 used by the source. -/
def PI : ℚ := 3.14

/-- BW, main.c line 159: the filter cutoff (bandwidth) in Hz. -/
def BW : ℚ := 100

/-- omega, main.c line 160: `omega = BW*2*PI/SAMP_FREQ`. -/
def omega : ℚ := BW * 2 * PI / SAMP_FREQ

/-- Modelled from the spec: `mapf` (PeriphBoard/utilities.h, not under src/) is the
standard linear interpolation on floats,
`out = out_lo + (in - in_lo) * (out_hi - out_lo) / (in_hi - in_lo)`,
modelled exactly over the rationals. -/
def mapf (x in_lo in_hi out_lo out_hi : ℚ) : ℚ :=
  out_lo + (x - in_lo) * (out_hi - out_lo) / (in_hi - in_lo)

/-- Modelled from the spec: `map32` (PeriphBoard/utilities.h, not under src/) is the
same standard linear interpolation on 32-bit unsigned integers, with truncating
integer division. -/
def map32 (x in_lo in_hi out_lo out_hi : ℕ) : ℕ :=
  out_lo + (x - in_lo) * (out_hi - out_lo) / (in_hi - in_lo)

/-- The persistent state: filter statics y_prev and x_prev (main.c line 155),
the shared buffer display_number (line 39) and the display cursor dig (line 248). -/
structure SysState where
  y_prev : ℚ
  x_prev : ℚ
  display_number : List ℕ
  dig : ℕ
deriving DecidableEq

/-- Startup state: `display_number = {1, 1, 1, 1}` (main.c line 39), the filter
statics initialised to 0 (line 155) and the cursor to 0 (line 248). -/
def initState : SysState := ⟨0, 0, [1, 1, 1, 1], 0⟩

/-- The filter recurrence of adc_handler on the state pair (y_prev, x_prev):
`y = (1-omega)*y_prev + omega*x_prev` (main.c line 167), then `y_prev = y;
x_prev = x` (lines 178-179).  The returned pair is the new (y_prev, x_prev);
its first component is the output y. -/
def lpf_step (st : ℚ × ℚ) (x : ℚ) : ℚ × ℚ :=
  ((1 - omega) * st.1 + omega * st.2, x)

/-- Output of the n-th filter step when the same input x is fed on every
activation, starting from state st0 (so `lpf_outs st0 x 0` is the initial
y_prev and `lpf_outs st0 x n`, n >= 1, is the output of the n-th step). -/
def lpf_outs (st0 : ℚ × ℚ) (x : ℚ) (n : ℕ) : ℚ :=
  ((fun s => lpf_step s x)^[n] st0).1

/-- The digit decomposition of adc_handler, main.c lines 183-186, including the
UINT8 truncation of the stores into display_number. -/
def digits_of (v : ℕ) : List ℕ :=
  [v % 10 % 256, (v % 100) / 10 % 256, (v % 1000) / 100 % 256, (v % 10000) / 1000 % 256]

/-- Body of adc_handler with the interrupt flag set (main.c lines 162-188), for a raw
ADC sample adc_raw: run the filter, rescale the filtered value to the DAC domain
(with RESOLUTION == 12 the source passes 4095 as in_hi, lines 173-174), rescale
the raw sample to millivolts with the fixed divisor 0xFFFF (line 182) and
overwrite the display buffer with the 4 digits.  Returns the new state and the
value written to the DAC. -/
def adc_handler_body (st : SysState) (adc_raw : ℕ) : SysState × ℚ :=
  let x : ℚ := (adc_raw : ℚ)
  let st' := lpf_step (st.y_prev, st.x_prev) x
  let dac_out : ℚ := mapf st'.1 0 4095 0 1023
  let adc_volt : ℕ := map32 adc_raw 0 0xFFFF 0 3300
  (⟨st'.1, st'.2, digits_of adc_volt, st.dig⟩, dac_out)

/-- adc_handler, main.c lines 152-190: the body runs only when the timer
interrupt flag is set; the DAC write is reported as `some` value when it happens. -/
def adc_handler (st : SysState) (flag : Bool) (adc_raw : ℕ) : SysState × Option ℚ :=
  if flag then ((adc_handler_body st adc_raw).1, some (adc_handler_body st adc_raw).2)
  else (st, none)

/-- The cursor advance of display_handler, main.c line 251:
`dig = (dig == DISPLAY_DIGIT_SIZE_MAX-1) ? 0 : (dig+1)`. -/
def next_dig (d : ℕ) : ℕ :=
  if d = DISPLAY_DIGIT_SIZE_MAX - 1 then 0 else d + 1

/-- Modelled from the spec: one invocation of the external digit driver display_dig
(PeriphBoard/ssd.h, not under src/).  Per the spec the display task invokes
DigitDisplay.showDigit with position = MultiplexCursor, value = the digit read
from the buffer, decimalPoint = off and blank (leading-zero suppression) = off. -/
structure DigitCall where
  position : ℕ
  value : ℕ
  decimalPoint : Bool
  blank : Bool
deriving DecidableEq

/-- Body of display_handler with the interrupt flag set (main.c lines 249-252):
read `display_number[DISPLAY_DIGIT_SIZE_MAX-1-dig]` (modelled with
Option-returning indexing), drive position dig with that digit and both flags
off, and advance the cursor.  Returns the new state and the emitted call. -/
def display_handler_body (st : SysState) : SysState × DigitCall :=
  (⟨st.y_prev, st.x_prev, st.display_number, next_dig st.dig⟩,
   ⟨st.dig,
    ((st.display_number).get? (DISPLAY_DIGIT_SIZE_MAX - 1 - st.dig)).getD 0,
    false, false⟩)

/-- display_handler, main.c lines 247-253: the body runs only when the timer
interrupt flag is set. -/
def display_handler (st : SysState) (flag : Bool) : SysState × Option DigitCall :=
  if flag then ((display_handler_body st).1, some (display_handler_body st).2)
  else (st, none)

/-- A sequence of display-task activations with the given interrupt-flag values. -/
def display_run (st : SysState) (flags : List Bool) : SysState :=
  flags.foldl (fun s f => (display_handler s f).1) st

/-- One hardware event: an ADC-timer interrupt (with flag value and raw sample)
or a display-timer interrupt (with flag value). -/
inductive Ev where
  | adc (flag : Bool) (raw : ℕ)
  | disp (flag : Bool)
deriving DecidableEq

/-- Effect of one event on the persistent state. -/
def sys_step (st : SysState) : Ev → SysState
  | Ev.adc flag raw => (adc_handler st flag raw).1
  | Ev.disp flag => (display_handler st flag).1

/-- Effect of a sequence of events, oldest first. -/
def sys_run (st : SysState) (evs : List Ev) : SysState :=
  evs.foldl sys_step st

/-- The buffer invariant: 4 cells, each a decimal digit. -/
def buffer_ok (buf : List ℕ) : Prop :=
  buf.length = 4 ∧ ∀ d ∈ buf, d ≤ 9

instance : DecidablePred buffer_ok := fun buf => by
  unfold buffer_ok; infer_instance

/-- C1: a flagged activation of the sampling task computes the filter output
`y = (1 - omega) * y_prev + omega * x_prev` from the previous input `x_prev`, leaves
the post-state with `x_prev` equal to the current input and `y_prev` equal to the new
output, and neither the output nor the DAC write depends on the current input, so the
current sample can only influence subsequent activations. -/
theorem adc_step_one_sample_delay (st : SysState) (x : ℕ) :
    (adc_handler st true x).1.y_prev = (1 - omega) * st.y_prev + omega * st.x_prev
  ∧ (adc_handler st true x).1.x_prev = (x : ℚ)
  ∧ ∀ x2 : ℕ, (adc_handler st true x).1.y_prev = (adc_handler st true x2).1.y_prev
      ∧ (adc_handler st true x).2 = (adc_handler st true x2).2 :=
  ⟨rfl, rfl, fun _ => ⟨rfl, rfl⟩⟩

/-- C2: the millivolt value decomposed into the display digits is computed with the
fixed 16-bit full-scale divisor 0xFFFF (main.c line 182) even though RESOLUTION = 12,
so the maximum 12-bit sample 4095 yields 206 mV, not the 3300 mV that linear
interpolation over the 12-bit native range [0, 2^12 - 1] produces. -/
theorem millivolt_rescale_uses_16bit_divisor :
    (adc_handler initState true 4095).1.display_number = digits_of (map32 4095 0 0xFFFF 0 3300)
  ∧ map32 4095 0 0xFFFF 0 3300 = 206
  ∧ map32 4095 0 (2 ^ RESOLUTION - 1) 0 3300 = 3300
  ∧ (206 : ℕ) ≠ 3300 :=
  ⟨rfl, by decide, by decide, by decide⟩

/-- C4: a flagged display activation reads the digit at buffer index
`DISPLAY_DIGIT_SIZE_MAX - 1 - dig = 3 - dig`, drives position `dig` with that digit,
decimal point off and blanking off, and advances the cursor by one with wraparound
from 3 back to 0. -/
theorem display_activation_drives_cursor_digit (y0 x0 : ℚ) (buf : List ℕ) (d : ℕ)
    (h : d ≤ 3) :
    (display_handler ⟨y0, x0, buf, d⟩ true).2 =
      some ⟨d, ((buf.get? (3 - d)).getD 0), false, false⟩
  ∧ (display_handler ⟨y0, x0, buf, d⟩ true).1.dig = (d + 1) % 4 := by
  refine ⟨rfl, ?_⟩
  show next_dig d = (d + 1) % 4
  interval_cases d <;> decide

/-- C5: on a flagged activation the display task advances the cursor by next_dig;
iterating next_dig four times is the identity on 0..3, and the four positions driven
over four consecutive flagged activations are a permutation of the four display
positions 0..3, i.e. each is driven exactly once. -/
theorem multiplex_coverage (c : ℕ) (h : c ≤ 3) :
    next_dig^[4] c = c
  ∧ ((List.range 4).map (fun k => next_dig^[k] c)).Perm [0, 1, 2, 3]
  ∧ ∀ st : SysState, (display_handler st true).1.dig = next_dig st.dig := by
  refine ⟨?_, ?_, fun st => rfl⟩ <;> interval_cases c <;> decide

/-- C6: for v in [0, 9999] the implemented decomposition (with its UINT8 stores)
agrees with the spec form d_i = (v / 10^i) % 10, and the digits recombine to v. -/
theorem digit_round_trip (v : ℕ) (h : v ≤ 9999) :
    digits_of v = [v % 10, (v / 10) % 10, (v / 100) % 10, (v / 1000) % 10]
  ∧ (digits_of v).getD 0 0 + 10 * (digits_of v).getD 1 0 + 100 * (digits_of v).getD 2 0
      + 1000 * (digits_of v).getD 3 0 = v := by
  have e1 : v % 100 / 10 = v / 10 % 10 := Nat.mod_mul_right_div_self v 10 10
  have e2 : v % 1000 / 100 = v / 100 % 10 := Nat.mod_mul_right_div_self v 100 10
  have e3 : v % 10000 / 1000 = v / 1000 % 10 := Nat.mod_mul_right_div_self v 1000 10
  have m0 : v % 10 % 256 = v % 10 := Nat.mod_eq_of_lt (by omega)
  have m1 : v / 10 % 10 % 256 = v / 10 % 10 := Nat.mod_eq_of_lt (by omega)
  have m2 : v / 100 % 10 % 256 = v / 100 % 10 := Nat.mod_eq_of_lt (by omega)
  have m3 : v / 1000 % 10 % 256 = v / 1000 % 10 := Nat.mod_eq_of_lt (by omega)
  have hd : digits_of v = [v % 10, v / 10 % 10, v / 100 % 10, v / 1000 % 10] := by
    unfold digits_of
    rw [e1, e2, e3, m0, m1, m2, m3]
  refine ⟨hd, ?_⟩
  rw [hd]
  simp only [List.getD_cons_zero, List.getD_cons_succ]
  omega

/-- C7: every cell of the display buffer is a decimal digit 0..9: the sentinel initial
buffer satisfies this, every flagged sampling activation on a sample in the 12-bit
native range writes four digits in 0..9, and display activations preserve it. -/
theorem display_buffer_digits_invariant :
    buffer_ok initState.display_number
  ∧ (∀ (st : SysState) (raw : ℕ), raw ≤ 4095 →
      buffer_ok (adc_handler st true raw).1.display_number)
  ∧ ∀ (st : SysState) (flag : Bool), buffer_ok st.display_number →
      buffer_ok ((display_handler st flag).1).display_number := by
  refine ⟨by decide, ?_, ?_⟩
  · intro st raw _
    show buffer_ok (digits_of (map32 raw 0 0xFFFF 0 3300))
    unfold buffer_ok digits_of
    refine ⟨rfl, ?_⟩
    intro d hd
    simp only [List.mem_cons, List.not_mem_nil, or_false] at hd
    rcases hd with h | h | h | h <;> subst h <;> omega
  · intro st flag hok
    cases flag <;> exact hok

/-- C9: before any sampling activation the shared buffer holds the sentinel {1,1,1,1},
and display-task activations, flagged or not, never modify the buffer. -/
theorem display_task_preserves_buffer :
    initState.display_number = [1, 1, 1, 1]
  ∧ ∀ (st : SysState) (flags : List Bool),
      (display_run st flags).display_number = st.display_number := by
  refine ⟨rfl, ?_⟩
  intro st flags
  induction flags generalizing st with
  | nil => rfl
  | cons f fs ih =>
    show (display_run ((display_handler st f).1) fs).display_number = st.display_number
    rw [ih]
    cases f <;> rfl

lemma sys_step_bounds (st : SysState) (e : Ev)
    (h : st.dig ≤ 3 ∧ st.display_number.length = 4) :
    (sys_step st e).dig ≤ 3 ∧ (sys_step st e).display_number.length = 4 := by
  rcases e with ⟨flag, raw⟩ | ⟨flag⟩
  · cases flag
    · exact h
    · exact ⟨h.1, rfl⟩
  · cases flag
    · exact h
    · refine ⟨?_, h.2⟩
      show next_dig st.dig ≤ 3
      unfold next_dig DISPLAY_DIGIT_SIZE_MAX
      split <;> omega

lemma sys_run_bounds (st : SysState) (evs : List Ev)
    (h : st.dig ≤ 3 ∧ st.display_number.length = 4) :
    (sys_run st evs).dig ≤ 3 ∧ (sys_run st evs).display_number.length = 4 := by
  induction evs generalizing st with
  | nil => exact h
  | cons e es ih => exact ih _ (sys_step_bounds st e h)

/-- C10: from the startup state, after any sequence of ADC and display activations the
multiplex cursor stays in 0..3, the Option-returning buffer read at index
`DISPLAY_DIGIT_SIZE_MAX - 1 - dig` is always `some` (the out-of-bounds branch is
unreachable), and the sampling task always writes a buffer of exactly 4 cells, i.e.
only indices 0 through 3. -/
theorem buffer_access_in_bounds (evs : List Ev) :
    (sys_run initState evs).dig ≤ 3
  ∧ (((sys_run initState evs).display_number).get?
      (DISPLAY_DIGIT_SIZE_MAX - 1 - (sys_run initState evs).dig)).isSome = true
  ∧ ((sys_run initState evs).display_number).length = 4
  ∧ ∀ raw : ℕ, (digits_of raw).length = 4 := by
  have h := sys_run_bounds initState evs ⟨by decide, rfl⟩
  refine ⟨h.1, ?_, h.2, fun _ => rfl⟩
  rw [List.get?_eq_getElem?]
  have hlt : DISPLAY_DIGIT_SIZE_MAX - 1 - (sys_run initState evs).dig <
      ((sys_run initState evs).display_number).length := by
    rw [h.2]
    unfold DISPLAY_DIGIT_SIZE_MAX
    omega
  simp [hlt]

lemma lpf_iterate_snd (st0 : ℚ × ℚ) (x : ℚ) (n : ℕ) (h : 1 ≤ n) :
    ((fun s => lpf_step s x)^[n] st0).2 = x := by
  obtain ⟨m, rfl⟩ : ∃ m, n = m + 1 := ⟨n - 1, by omega⟩
  rw [Function.iterate_succ_apply']
  rfl

lemma lpf_outs_succ (st0 : ℚ × ℚ) (x : ℚ) (n : ℕ) (h : 1 ≤ n) :
    lpf_outs st0 x (n + 1) = (1 - omega) * lpf_outs st0 x n + omega * x := by
  unfold lpf_outs
  rw [Function.iterate_succ_apply']
  show (1 - omega) * _ + omega * ((fun s => lpf_step s x)^[n] st0).2 = _
  rw [lpf_iterate_snd st0 x n h]

lemma lpf_outs_closed (st0 : ℚ × ℚ) (x : ℚ) (k : ℕ) :
    lpf_outs st0 x (k + 1) - x = (1 - omega) ^ k * (lpf_outs st0 x 1 - x) := by
  induction k with
  | zero => simp
  | succ m ih =>
    rw [lpf_outs_succ st0 x (m + 1) (by omega)]
    have e : (1 - omega) * lpf_outs st0 x (m + 1) + omega * x - x
        = (1 - omega) * (lpf_outs st0 x (m + 1) - x) := by ring
    rw [e, ih, pow_succ]
    ring

lemma lpf_tendsto (st0 : ℚ × ℚ) (x : ℚ) :
    Filter.Tendsto (fun n => lpf_outs st0 x n) Filter.atTop (nhds x) := by
  have hr0 : (0 : ℚ) ≤ 1 - omega := by norm_num [omega, PI, BW, SAMP_FREQ]
  have hr1 : (1 - omega : ℚ) < 1 := by norm_num [omega, PI, BW, SAMP_FREQ]
  have hpow : Filter.Tendsto (fun k : ℕ => (1 - omega) ^ k) Filter.atTop (nhds 0) :=
    tendsto_pow_atTop_nhds_zero_of_lt_one hr0 hr1
  have h1 : Filter.Tendsto (fun k : ℕ => lpf_outs st0 x (k + 1)) Filter.atTop (nhds x) := by
    have e : (fun k : ℕ => lpf_outs st0 x (k + 1))
        = fun k : ℕ => (1 - omega) ^ k * (lpf_outs st0 x 1 - x) + x := by
      funext k
      linear_combination lpf_outs_closed st0 x k
    rw [e]
    have h2 := (hpow.mul_const (lpf_outs st0 x 1 - x)).add_const x
    simpa using h2
  exact (Filter.tendsto_add_atTop_iff_nat 1).mp h1

/-- C3: the configured coefficient is omega = 0.628; for any initial state and constant
input xc, from the second step on the error decreases with exact ratio (1 - omega) per
step, the outputs converge to xc, and from state (0, 0) the first step on input 2048
returns 0 while the second returns 0.628 * 2048. -/
theorem lpf_constant_input_converges (y0 x0 xc : ℚ) :
    omega = 0.628
  ∧ (∀ n : ℕ, 1 ≤ n →
      |lpf_outs (y0, x0) xc (n + 1) - xc| = (1 - omega) * |lpf_outs (y0, x0) xc n - xc|)
  ∧ Filter.Tendsto (fun n => lpf_outs (y0, x0) xc n) Filter.atTop (nhds xc)
  ∧ lpf_outs (0, 0) 2048 1 = 0
  ∧ lpf_outs (0, 0) 2048 2 = 0.628 * 2048 := by
  refine ⟨by norm_num [omega, PI, BW, SAMP_FREQ], ?_, lpf_tendsto _ _, ?_, ?_⟩
  · intro n hn
    rw [lpf_outs_succ _ _ n hn]
    have e : (1 - omega) * lpf_outs (y0, x0) xc n + omega * xc - xc
        = (1 - omega) * (lpf_outs (y0, x0) xc n - xc) := by ring
    rw [e, abs_mul,
      abs_of_nonneg (by norm_num [omega, PI, BW, SAMP_FREQ] : (0 : ℚ) ≤ 1 - omega)]
  · norm_num [lpf_outs, lpf_step, Function.iterate_succ_apply, Function.iterate_zero_apply]
  · norm_num [lpf_outs, lpf_step, Function.iterate_succ_apply, Function.iterate_zero_apply,
      omega, PI, BW, SAMP_FREQ]

/-- C8: the filtered-value-to-DAC rescale onto [0, 1023] and the raw-sample-to-millivolt
rescale onto [0, 3300] are both monotone non-decreasing on the native range. -/
theorem rescale_monotone (a b : ℚ) (s t : ℕ) (ha : 0 ≤ a) (hab : a ≤ b) (hb : b ≤ 4095)
    (hst : s ≤ t) (ht : t ≤ 4095) :
    mapf a 0 4095 0 1023 ≤ mapf b 0 4095 0 1023
  ∧ map32 s 0 0xFFFF 0 3300 ≤ map32 t 0 0xFFFF 0 3300 := by
  constructor
  · have e : ∀ x : ℚ, mapf x 0 4095 0 1023 = x * (1023 / 4095) := by
      intro x; unfold mapf; ring
    rw [e, e]
    exact mul_le_mul_of_nonneg_right hab (by norm_num)
  · have e : ∀ u : ℕ, map32 u 0 0xFFFF 0 3300 = u * 3300 / 65535 := by
      intro u; simp [map32]
    rw [e, e]
    exact Nat.div_le_div_right (Nat.mul_le_mul_right 3300 hst)

/-- Witness for C3: at the concrete state (0, 0) and constant input 2048, the error
ratio between steps 3 and 2 is exactly (1 - omega). -/
theorem lpf_constant_input_converges_witness :
    (1 : ℕ) ≤ 2
  ∧ |lpf_outs (0, 0) 2048 (2 + 1) - 2048| = (1 - omega) * |lpf_outs (0, 0) 2048 2 - 2048| :=
  ⟨by decide, (lpf_constant_input_converges 0 0 2048).2.1 2 (by decide)⟩

/-- Witness for C4: at cursor 3 on the sentinel buffer the activation drives position 3
with the digit at index 0 and wraps the cursor to 0. -/
theorem display_activation_drives_cursor_digit_witness :
    (3 : ℕ) ≤ 3
  ∧ ((display_handler ⟨0, 0, [1, 1, 1, 1], 3⟩ true).2 =
      some ⟨3, ((([1, 1, 1, 1] : List ℕ).get? (3 - 3)).getD 0), false, false⟩
    ∧ (display_handler ⟨0, 0, [1, 1, 1, 1], 3⟩ true).1.dig = (3 + 1) % 4) :=
  ⟨by decide, display_activation_drives_cursor_digit 0 0 [1, 1, 1, 1] 3 (by decide)⟩

/-- Witness for C5: starting from cursor 1, four activations drive each position once
and return the cursor to 1. -/
theorem multiplex_coverage_witness :
    (1 : ℕ) ≤ 3
  ∧ (next_dig^[4] 1 = 1
    ∧ ((List.range 4).map (fun k => next_dig^[k] 1)).Perm [0, 1, 2, 3]
    ∧ ∀ st : SysState, (display_handler st true).1.dig = next_dig st.dig) :=
  ⟨by decide, multiplex_coverage 1 (by decide)⟩

/-- Witness for C6: the decomposition of 3300 is {0, 0, 3, 3} and recombines to 3300. -/
theorem digit_round_trip_witness :
    (3300 : ℕ) ≤ 9999
  ∧ (digits_of 3300 = [3300 % 10, 3300 / 10 % 10, 3300 / 100 % 10, 3300 / 1000 % 10]
    ∧ (digits_of 3300).getD 0 0 + 10 * (digits_of 3300).getD 1 0
        + 100 * (digits_of 3300).getD 2 0 + 1000 * (digits_of 3300).getD 3 0 = 3300) :=
  ⟨by decide, digit_round_trip 3300 (by decide)⟩

/-- Witness for C7: the buffers written by a flagged sampling activation on sample 2048
and by a flagged display activation from the startup state satisfy the digit invariant. -/
theorem display_buffer_digits_invariant_witness :
    buffer_ok (adc_handler initState true 2048).1.display_number
  ∧ buffer_ok ((display_handler initState true).1).display_number :=
  ⟨display_buffer_digits_invariant.2.1 initState 2048 (by decide),
   display_buffer_digits_invariant.2.2 initState true (by decide)⟩

/-- Witness for C8: both rescales are non-decreasing between the concrete inputs
100 and 200 (rational) and 1000 and 2000 (raw). -/
theorem rescale_monotone_witness :
    ((0 : ℚ) ≤ 100 ∧ (100 : ℚ) ≤ 200 ∧ (200 : ℚ) ≤ 4095 ∧ (1000 : ℕ) ≤ 2000
      ∧ (2000 : ℕ) ≤ 4095)
  ∧ (mapf 100 0 4095 0 1023 ≤ mapf 200 0 4095 0 1023
    ∧ map32 1000 0 0xFFFF 0 3300 ≤ map32 2000 0 0xFFFF 0 3300) :=
  ⟨⟨by decide, by decide, by decide, by decide, by decide⟩,
   rescale_monotone 100 200 1000 2000 (by decide) (by decide) (by decide) (by decide)
     (by decide)⟩
